import Mathlib

/-!
# Verification of the `npmjs` registry client

A shallow embedding of the request-resolution core of the `npmjs`
repository (mirror failover in `src/index.js`, the normalization
pipeline in `src/normalize/users.js`, and the release materializer in
`src/endpoints/packages.js`), together with theorems settling the
frozen claims about it.

JavaScript values are modelled by the inductive type `JSVal`:

* JSON trees (no reference sharing inside an input value — JSON-shaped
  inputs are trees);
* `Date` objects carry the raw string they were constructed from
  (timestamp parsing is abstracted: no claim compares parsed
  timestamps of distinct strings);
* object property order is insertion order (every key appearing in the
  source and in the claims is non-numeric, so JavaScript's
  integer-keys-first ordering never differs from insertion order);
* property access on `undefined`/`null` throws in JavaScript; the
  embeddings use the fallible `getPropE`/`hasPropE`/`objKeysE`
  wherever the base value can actually be nullish, and the total
  `getProp` only at bases that the surrounding code has already
  guarded with `|| {}`, a `typeof` test, or an earlier normalization
  step (each such use is justified in a comment);
* in-place mutation: the normalization functions mutate their argument
  and return it, so the caller's document after the call *is* the
  returned value; aliasing created inside `packages` (the `created`
  field taking the `time` object, `time` taken from the latest
  version object) is reproduced by applying the subsequent in-place
  updates to every alias, with comments at the aliasing points.
  The release materializer's claims are about object identity, so that
  part is additionally embedded against an explicit store (`HStore`).
-/

namespace Npmjs

/-- JavaScript runtime values, restricted to the JSON-shaped data the
registry client manipulates.  `date s` is a `Date` constructed from the
string `s` (or the invalid date for non-string arguments). -/
inductive JSVal : Type where
  | undefined : JSVal
  | null : JSVal
  | bool : Bool → JSVal
  | num : Int → JSVal
  | str : String → JSVal
  | arr : List JSVal → JSVal
  | obj : List (String × JSVal) → JSVal
  | date : String → JSVal
deriving Repr, Inhabited

namespace JSVal

/-- JavaScript truthiness: `undefined`, `null`, `false`, `0` and `""`
are falsy; every object (including `{}`, `[]` and dates) is truthy. -/
def truthy : JSVal → Bool
  | .undefined => false
  | .null => false
  | .bool b => b
  | .num n => n != 0
  | .str s => s ≠ ""
  | .arr _ => true
  | .obj _ => true
  | .date _ => true

/-- The `typeof` operator.  Note `typeof null === "object"`. -/
def jsTypeof : JSVal → String
  | .undefined => "undefined"
  | .null => "object"
  | .bool _ => "boolean"
  | .num _ => "number"
  | .str _ => "string"
  | .arr _ => "object"
  | .obj _ => "object"
  | .date _ => "object"

/-- The repository's `type()` helper
(`Object.prototype.toString.call(x).slice(8, -1).toLowerCase()`),
which distinguishes `null`, arrays and dates from plain objects. -/
def toType : JSVal → String
  | .undefined => "undefined"
  | .null => "null"
  | .bool _ => "boolean"
  | .num _ => "number"
  | .str _ => "string"
  | .arr _ => "array"
  | .obj _ => "object"
  | .date _ => "date"

/-- First-match association lookup (JavaScript objects have unique
keys; raw inputs with duplicate keys are read and written consistently
at the first occurrence). -/
def assocFind : List (String × JSVal) → String → Option JSVal
  | [], _ => none
  | (k, v) :: r, key => if k = key then some v else assocFind r key

/-- Update the first binding of `key`, or append a new one (JavaScript
assignment preserves the position of an existing property and appends
a new property at the end). -/
def assocSet : List (String × JSVal) → String → JSVal → List (String × JSVal)
  | [], key, v => [(key, v)]
  | (k, w) :: r, key, v =>
      if k = key then (k, v) :: r else (k, w) :: assocSet r key v

/-- Remove every binding of `key` (the `delete` operator). -/
def assocDel : List (String × JSVal) → String → List (String × JSVal)
  | [], _ => []
  | (k, w) :: r, key => if k = key then assocDel r key else (k, w) :: assocDel r key

/-- Character of a string at numeric index (string property access like
`"not-an-object"["0"]`). -/
def strCharAt (s : String) (i : Nat) : JSVal :=
  match (s.toList.drop i).headD ' ', decide (i < s.length) with
  | c, true => .str (String.mk [c])
  | _, false => .undefined

/-- Base-ten value of a digit list (a kernel-reducible `toNat`). -/
def charsToNat (cs : List Char) : Nat :=
  cs.foldl (fun a c => a * 10 + (c.toNat - 48)) 0

/-- Parse a string as a canonical base-ten numeral, for property keys
like `"0"` that index into strings and arrays. -/
def numKey (k : String) : Option Nat :=
  if k.toList.all Char.isDigit ∧ k ≠ "" ∧ (k = "0" ∨ k.toList.headD '0' ≠ '0')
  then some (charsToNat k.toList) else none

/-- Total property access, used only where the base value has already
been shown non-nullish (guarded by `|| {}`, a `typeof` check or an
earlier normalization step); JavaScript property access on other
non-nullish primitives yields `undefined` apart from string/array
indexing. -/
def getProp (v : JSVal) (key : String) : JSVal :=
  match v with
  | .obj fs => (assocFind fs key).getD .undefined
  | .str s =>
      (match numKey key with
       | some i => strCharAt s i
       | none => if key = "length" then .num s.length else .undefined)
  | .arr xs =>
      (match numKey key with
       | some i => (xs.drop i).headD .undefined
       | none => if key = "length" then .num xs.length else .undefined)
  | _ => .undefined

/-- Fallible property access: JavaScript throws a `TypeError` when the
base of a property read is `undefined` or `null`. -/
def getPropE (v : JSVal) (key : String) : Except String JSVal :=
  match v with
  | .undefined => .error ("TypeError: cannot read property " ++ key ++ " of undefined")
  | .null => .error ("TypeError: cannot read property " ++ key ++ " of null")
  | w => .ok (getProp w key)

/-- The `in` operator; it throws on non-object right-hand sides
(`undefined`, `null` and primitives). -/
def hasPropE (v : JSVal) (key : String) : Except String Bool :=
  match v with
  | .obj fs => .ok (assocFind fs key).isSome
  | .arr xs => .ok ((numKey key).elim false (· < xs.length) || key = "length")
  | .date _ => .ok false
  | _ => .error ("TypeError: cannot use in operator on " ++ jsTypeof v)

/-- Property assignment.  On plain objects it updates in place or
appends; the source only ever assigns onto objects (`'use strict'`
makes assignment onto a primitive throw — that case is modelled by
`setPropE`).  Assignment onto an array would attach an expando
property, which this tree model omits: no code path exercised by the
claims assigns onto an array, and every general theorem below excludes
array-valued `dist-tags` explicitly. -/
def setProp (v : JSVal) (key : String) (w : JSVal) : JSVal :=
  match v with
  | .obj fs => .obj (assocSet fs key w)
  | other => other

/-- Strict-mode property assignment: throws a `TypeError` when the
target is not an object (`'use strict'` is in force in every source
file). -/
def setPropE (v : JSVal) (key : String) (w : JSVal) : Except String JSVal :=
  match v with
  | .obj fs => .ok (.obj (assocSet fs key w))
  | .arr _ => .ok (setProp v key w)
  | other => .error ("TypeError: cannot create property " ++ key ++ " on " ++ jsTypeof other)

/-- The `delete` operator (only applied to plain objects in the source). -/
def delProp (v : JSVal) (key : String) : JSVal :=
  match v with
  | .obj fs => .obj (assocDel fs key)
  | other => other

/-- `Object.keys` on a non-nullish value (ES2015 coerces primitives:
a string contributes its character indices, numbers and booleans have
no own enumerable keys). -/
def objKeys : JSVal → List String
  | .obj fs => fs.map Prod.fst
  | .arr xs => (List.range xs.length).map toString
  | .str s => (List.range s.length).map toString
  | _ => []

/-- `Object.keys` where the argument may be nullish (it throws on
`undefined` and `null`). -/
def objKeysE : JSVal → Except String (List String)
  | .undefined => .error "TypeError: Object.keys called on undefined"
  | .null => .error "TypeError: Object.keys called on null"
  | v => .ok (objKeys v)

/-- `a || b`. -/
def jsOr (a b : JSVal) : JSVal := if truthy a then a else b

/-- Coercion of a value to a property key (`ToPropertyKey`).  Objects
and arrays coerce through `toString`; the source only ever uses string
and `undefined` keys, so the object cases are schematic. -/
def toPropKey : JSVal → String
  | .undefined => "undefined"
  | .null => "null"
  | .bool b => if b then "true" else "false"
  | .num n => toString n
  | .str s => s
  | .arr _ => ""
  | .obj _ => "[object Object]"
  | .date s => s

/-- `new Date(x)`.  A string argument records the raw string (parsing
is abstracted to the identity — no claim compares timestamps of
distinct strings); a `Date` argument copies the value
(`new Date(d)` is value-equal to `d`); anything else yields the
invalid date. -/
def newDate : JSVal → JSVal
  | .str s => .date s
  | .date s => .date s
  | _ => .date "Invalid Date"

/-- Map a function over the values of an object, leaving non-objects
unchanged (the `Object.keys(o).forEach(k => o[k] = f(o[k]))` pattern). -/
def mapObjVals (f : JSVal → JSVal) : JSVal → JSVal
  | .obj fs => .obj (fs.map fun p => (p.1, f p.2))
  | other => other

/-- Primitive values, for which structural equality coincides with
JavaScript's `===` (on objects `===` is reference equality, which a
tree model cannot express; the mirror configuration is a list of
strings, `src/index.js:320-326`). -/
def isPrim : JSVal → Bool
  | .obj _ => false
  | .arr _ => false
  | .date _ => false
  | _ => true

/-- `===` on primitive values; separately constructed objects are
never `===`, which matches returning `false` on the object
constructors for values drawn from a configuration literal. -/
def strictEq : JSVal → JSVal → Bool
  | .undefined, .undefined => true
  | .null, .null => true
  | .bool a, .bool b => a = b
  | .num a, .num b => a = b
  | .str a, .str b => a = b
  | _, _ => false

end JSVal

/-! ## A small semantic-version library

`src/normalize/users.js` calls `semver.valid(version, true)` (loose
parsing) and `semver.gt` inside the (discarded) filter/sort of release
identifiers.  Only plain `major.minor.patch` versions with optional
prerelease/build suffixes occur in the claims. -/

namespace Semver

/-- Split a list of characters at the first occurrence of any of the
given separators, returning the prefix and the rest (separator
included). -/
def spanNotIn (seps : List Char) : List Char → List Char × List Char
  | [] => ([], [])
  | c :: r =>
      if c ∈ seps then ([], c :: r)
      else
        let (a, b) := spanNotIn seps r
        (c :: a, b)

/-- Parse a non-empty decimal numeral. -/
def parseNatPart (cs : List Char) : Option Nat :=
  if cs ≠ [] ∧ cs.all Char.isDigit then some (JSVal.charsToNat cs) else none

/-- Loose semantic-version parsing (`semver.valid(v, true)`): optional
leading `v`/`=`/spaces, then `major.minor.patch`, then an optional
`-prerelease` and `+build` suffix of version-safe characters. -/
def parseLoose (s : String) : Option (Nat × Nat × Nat × String) :=
  let cs := s.toList.dropWhile fun c => c = 'v' ∨ c = '=' ∨ c = ' '
  let (m1, r1) := spanNotIn ['.'] cs
  match r1 with
  | '.' :: r1 =>
      let (m2, r2) := spanNotIn ['.'] r1
      match r2 with
      | '.' :: r2 =>
          let (m3, r3) := spanNotIn ['-', '+'] r2
          match parseNatPart m1, parseNatPart m2, parseNatPart m3 with
          | some a, some b, some c =>
              let pre := match r3 with
                | '-' :: p => String.mk (p.takeWhile fun ch => ch ≠ '+')
                | _ => ""
              if r3.all fun ch =>
                  ch.isAlphanum ∨ ch = '-' ∨ ch = '+' ∨ ch = '.'
              then some (a, b, c, pre) else none
          | _, _, _ => none
      | _ => none
  | _ => none

/-- `semver.valid(v, true)` as a Boolean. -/
def validLoose (s : String) : Bool := (parseLoose s).isSome

/-- `semver.gt a b` on the parsed triples: numeric comparison of
`major.minor.patch`; on equal triples a release is greater than a
prerelease, and distinct prereleases compare by string (sufficient for
the version identifiers appearing in the claims). -/
def gtBool (a b : String) : Bool :=
  match parseLoose a, parseLoose b with
  | some (a1, a2, a3, ap), some (b1, b2, b3, bp) =>
      if a1 ≠ b1 then a1 > b1
      else if a2 ≠ b2 then a2 > b2
      else if a3 ≠ b3 then a3 > b3
      else if ap = bp then false
      else if ap = "" then true
      else if bp = "" then false
      else bp < ap
  | _, _ => false

/-- Insertion sort by a Boolean "comes first" relation; with the
comparator `(a, b) => semver.gt(a, b) ? -1 : 1` the sorted order puts
greater versions first. -/
def insertBy (firstOf : String → String → Bool) (x : String) :
    List String → List String
  | [] => [x]
  | y :: r => if firstOf x y then x :: y :: r else y :: insertBy firstOf x r

/-- Sort descending by `semver.gt` (the order the source's discarded
`sort` call would produce on a list of distinct valid versions). -/
def sortDesc (l : List String) : List String :=
  l.foldr (insertBy gtBool) []

end Semver

/-! ## Normalization pipeline — user path (`src/normalize/users.js:12-54`)

The two regular expressions are compiled with the `g` flag and reused:
`re.test(s)` advances `re.lastIndex` past the first match, and the
subsequent `re.exec(...)` resumes searching *from that index*.  The
scan functions below take the start index explicitly so that both
calls can be modelled faithfully. -/

namespace UsersRe

/-- Case-insensitive character comparison. -/
def chEq (a b : Char) : Bool := a.toLower = b.toLower

/-- Does `pat` occur at the head of `s` (case-insensitively), with `?`
in the pattern standing for "any character" (the unescaped `.` of
`/twitter.com\//`)? -/
def matchesAt : List Char → List Char → Bool
  | [], _ => true
  | _ :: _, [] => false
  | p :: ps, c :: cs => (p = '?' || chEq p c) && matchesAt ps cs

/-- One attempt of `/github\.com\/([^\/]+)\/?/i` at a fixed position:
the literal `github.com/`, a non-empty run of non-`/` characters
(the capture), then an optional `/`.  Returns the capture and the
index one past the match. -/
def githubAt (s : List Char) (pos : Nat) : Option (String × Nat) :=
  let tail := s.drop pos
  if matchesAt "github.com/".toList tail then
    let after := tail.drop 11
    let cap := after.takeWhile fun c => c ≠ '/'
    if cap ≠ [] then
      let endBase := pos + 11 + cap.length
      let slash := if (after.drop cap.length).headD ' ' = '/' ∧
          (after.drop cap.length) ≠ [] then 1 else 0
      some (String.mk cap, endBase + slash)
    else none
  else none

/-- Scan for the first match of the github regex at or after `pos`
(structural recursion on the unscanned suffix length). -/
def githubScanFrom (s : List Char) (pos fuel : Nat) : Option (String × Nat) :=
  match fuel with
  | 0 => none
  | fuel + 1 =>
      if pos > s.length then none
      else match githubAt s pos with
        | some r => some r
        | none => githubScanFrom s (pos + 1) fuel

/-- `/github\.com\/([^\/]+)\/?/gi` applied to `str` with `lastIndex`
at `pos`: capture group and updated `lastIndex`. -/
def githubScan (str : String) (pos : Nat) : Option (String × Nat) :=
  githubScanFrom str.toList pos (str.length + 1 - min pos (str.length + 1))

/-- One attempt of `/twitter.com\/[#!@\/]{0,}([^\/]+)\/?/i` at a fixed
position, with backtracking between the greedy `[#!@/]*` run and the
required non-empty `[^/]+` capture: `k` characters of the class run
are kept when the character after them exists and is not `/`
(the largest such `k` wins, as the greedy engine backtracks down). -/
def twitterAt (s : List Char) (pos : Nat) : Option (String × Nat) :=
  let tail := s.drop pos
  if matchesAt "twitter?com/".toList tail then
    let after := tail.drop 12
    let classRun := after.takeWhile fun c => c ∈ ['#', '!', '@', '/']
    let tryK := fun (k : Nat) =>
      match (after.drop k).headD ' ', decide ((after.drop k) ≠ []) with
      | c, true =>
          if c ≠ '/' then
            let cap := (after.drop k).takeWhile fun ch => ch ≠ '/'
            let endBase := pos + 12 + k + cap.length
            let restp := after.drop (k + cap.length)
            let slash := if restp.headD ' ' = '/' ∧ restp ≠ [] then 1 else 0
            some (String.mk cap, endBase + slash)
          else none
      | _, false => none
    ((List.range (classRun.length + 1)).reverse.firstM tryK)
  else none

/-- Scan for the first match of the twitter regex at or after `pos`. -/
def twitterScanFrom (s : List Char) (pos fuel : Nat) : Option (String × Nat) :=
  match fuel with
  | 0 => none
  | fuel + 1 =>
      if pos > s.length then none
      else match twitterAt s pos with
        | some r => some r
        | none => twitterScanFrom s (pos + 1) fuel

/-- `/twitter.com\/[#!@\/]{0,}([^\/]+)\/?/gi` applied to `str` with
`lastIndex` at `pos`. -/
def twitterScan (str : String) (pos : Nat) : Option (String × Nat) :=
  twitterScanFrom str.toList pos (str.length + 1 - min pos (str.length + 1))

/-- Drop `/^https?:\/\/(www\.)?github\.com\//i` from the head of the
string, if present (`String.replace` with the empty replacement). -/
def stripGithubUrl (s : String) : String :=
  let cs := s.toList
  let afterScheme :=
    if matchesAt "https://".toList cs then some (cs.drop 8)
    else if matchesAt "http://".toList cs then some (cs.drop 7)
    else none
  match afterScheme with
  | none => s
  | some rest =>
      let rest := if matchesAt "www.".toList rest then rest.drop 4 else rest
      if matchesAt "github.com/".toList rest then String.mk (rest.drop 11) else s

/-- Drop `/^https?:\/\/twitter.com\//i` from the head of the string if
present (the `.` before `com` is unescaped in the source and matches
any character). -/
def stripTwitterUrl (s : String) : String :=
  let cs := s.toList
  let afterScheme :=
    if matchesAt "https://".toList cs then some (cs.drop 8)
    else if matchesAt "http://".toList cs then some (cs.drop 7)
    else none
  match afterScheme with
  | none => s
  | some rest =>
      if matchesAt "twitter?com/".toList rest then String.mk (rest.drop 12) else s

/-- The string JavaScript's regex engine sees when `exec` is handed a
non-string argument (`String(x)`); only `undefined` (from the
misspelled `data.twiter`) occurs in the source. -/
def coerceArg : JSVal → String
  | .str s => s
  | .undefined => "undefined"
  | .null => "null"
  | _ => ""

end UsersRe

open JSVal UsersRe in
/-- `normalize.users` (`src/normalize/users.js:12-54`).  The function
mutates `data` in place and returns it; in this pure embedding the
returned value is the final state of the caller's object.  A thrown
`TypeError` (from `github.exec(...)[1]` or `twitter.exec(...)[1]`
evaluating `null[1]` after the `g`-flag `lastIndex` advanced past the
only match) is an `.error` result. -/
def users (data : JSVal) : Except String JSVal := do
  if ¬ truthy data ∨ toType data ≠ "object" then return .obj []
  -- github block (lines 20-30); `data` is a plain object here.
  let data ←
    if truthy (getProp data "github") then
      if jsTypeof (getProp data "github") ≠ "string" then
        pure (delProp data "github")
      else
        let s := toPropKey (getProp data "github")
        match githubScan s 0 with
        | some (_, lastIdx) =>
            -- `github.test(data.github)` was true and left `lastIndex`
            -- at `lastIdx`; `github.exec(data.github)` resumes there.
            (match githubScan s lastIdx with
             | some (cap, _) => pure (setProp data "github" (.str cap))
             | none => Except.error
                 "TypeError: cannot read property 1 of null")
        | none =>
            pure (setProp data "github" (.str (stripGithubUrl s)))
    else pure data
  -- twitter block (lines 37-51).
  let data ←
    if truthy (getProp data "twitter") then
      if jsTypeof (getProp data "twitter") ≠ "string" then
        pure (delProp data "twitter")
      else
        let s := toPropKey (getProp data "twitter")
        if s.toList.headD ' ' = '@' then
          -- `data.twitter.indexOf('@') === 0` followed by `.slice(1)`.
          pure (setProp data "twitter" (.str (String.mk (s.toList.drop 1))))
        else match twitterScan s 0 with
        | some (_, lastIdx) =>
            -- `twitter.test(data.twitter)` succeeded; the subsequent
            -- `twitter.exec(data.twiter)` reads the misspelled field
            -- (`undefined`, coerced to the string "undefined") and
            -- resumes from the advanced `lastIndex`.
            (match twitterScan (coerceArg (getProp data "twiter")) lastIdx with
             | some (cap, _) => pure (setProp data "twitter" (.str cap))
             | none => Except.error
                 "TypeError: cannot read property 1 of null")
        | none =>
            -- `.replace(/^@*(.*)/, '$1')` is the identity here (the
            -- string does not start with `@`, and `^@*` matches the
            -- empty string), then the URL scheme strip.
            pure (setProp data "twitter" (.str (stripTwitterUrl s)))
    else pure data
  return data

/-! ## Normalization pipeline — package path (`src/normalize/users.js:132-240`) -/

/-- The registry's creation date constant
(`src/normalize/users.js:59`). -/
def creation : String := "2010-01-14T01:41:08-08:00"

/-- The fixed field/default table of the normalization `forEach`
(`src/normalize/users.js:153-168`), in source order. -/
def transforms : List (String × JSVal) :=
  [("bundledDependencies", .arr []),
   ("dependencies", .obj []),
   ("description", .str ""),
   ("devDependencies", .obj []),
   ("engines", .obj []),
   ("keywords", .arr []),
   ("maintainers", .arr []),
   ("optionalDependencies", .obj []),
   ("peerDependencies", .obj []),
   ("readme", .str ""),
   ("readmeFilename", .str ""),
   ("scripts", .obj []),
   ("time", .obj []),
   ("version", .str ""),
   ("versions", .obj [])]

open JSVal in
/-- The pure tail of `normalize.packages`, from line 151 on: every
property read in it is on a base already guaranteed non-nullish
(`data` is a plain object, `dist-tags` survived the `in` gate, other
bases are guarded by `|| {}` or by the `forEach` type check), so this
part never throws. -/
def packagesRest (data : JSVal) (releases : List String) : JSVal :=
  -- line 151: latest = (data.versions || {})[data['dist-tags'].latest] || {}
  -- `data['dist-tags']` is non-null here (a null value made the `in`
  -- gate throw), and the two `|| {}` keep the bases non-nullish.
  let tagv := getProp (getProp data "dist-tags") "latest"
  let latest := jsOr (getProp (jsOr (getProp data "versions") (.obj [])) (toPropKey tagv)) (.obj [])
  -- `time` taken from the latest version object is the *same* object
  -- (`data.time = latest.time` copies a reference); the in-place date
  -- conversion of lines 217-219 is visible through every alias, which
  -- the tree model reproduces below.
  let timeFromLatest :=
    ¬ truthy (getProp data "time") ∧ truthy (getProp latest "time") ∧
      toType (getProp latest "time") = "object"
  -- lines 153-181: the defaulting forEach.  The two source statements
  -- (`data[key] = data[key] || latest[key] || value` and the type
  -- check resetting to `value`) are fused into one update per key.
  let data := transforms.foldl
    (fun d t =>
      let v0 := jsOr (getProp d t.1) (jsOr (getProp latest t.1) t.2)
      setProp d t.1 (if toType v0 ≠ toType t.2 then t.2 else v0))
    data
  -- line 184: data._id = data.name = name-chain (name is written first).
  let nameVal := jsOr (getProp data "name")
    (jsOr (getProp data "_id") (jsOr (getProp latest "name") (getProp latest "_id")))
  let data := setProp (setProp data "name" nameVal) "_id" nameVal
  -- lines 185-186.
  let data := setProp data "releases" (.arr (releases.map .str))
  let data := setProp data "latest" latest
  -- lines 191-192: the split result is discarded by the source
  -- (`data.keywords.split(...)` is computed but never assigned), so
  -- only the `typeof` test is kept; then the array check.
  let _kwIsString := jsTypeof (getProp data "keywords") = "string"
  let data :=
    if toType (getProp data "keywords") ≠ "array" then delProp data "keywords" else data
  -- lines 198-209: modified/created resolution.  `data.time` is a
  -- plain object after the forEach, so `data.created = data.created
  -- || data.time` takes the (always truthy) time object whenever
  -- `created` is absent; `createdIsTime` records that aliasing.
  let needsDates := ¬ truthy (getProp data "modified") ∨ ¬ truthy (getProp data "created")
  let createdIsTime := needsDates ∧ ¬ truthy (getProp data "created")
  let data :=
    if needsDates then
      let m0 := jsOr (getProp data "modified") (getProp data "mtime")
      let c0 := jsOr (getProp data "created") (getProp data "time")
      let hasTimeObj := jsTypeof (getProp data "time") = "object"
      let m1 :=
        if hasTimeObj ∧ truthy (getProp (getProp data "time") "modified") ∧ ¬ truthy m0
        then getProp (getProp data "time") "modified" else m0
      let c1 :=
        if hasTimeObj ∧ truthy (getProp (getProp data "time") "created") ∧ ¬ truthy c0
        then getProp (getProp data "time") "created" else c0
      setProp (setProp data "modified" (jsOr m1 (.str creation)))
        "created" (jsOr c1 (.str creation))
    else data
  -- lines 214-215: string dates become Date objects.
  let data :=
    if jsTypeof (getProp data "modified") = "string"
    then setProp data "modified" (newDate (getProp data "modified")) else data
  let data :=
    if jsTypeof (getProp data "created") = "string"
    then setProp data "created" (newDate (getProp data "created")) else data
  -- lines 217-219: in-place conversion of the time map's values; the
  -- conversion is applied to every alias of the time object (the
  -- `created` field when it took `data.time`, and — when `time` came
  -- from the latest version object — that version object inside
  -- `versions` and the `latest` field).
  let timeConv := mapObjVals newDate (getProp data "time")
  let data := setProp data "time" timeConv
  let data := if createdIsTime then setProp data "created" timeConv else data
  let latestConv := if timeFromLatest then setProp latest "time" timeConv else latest
  let data := if timeFromLatest then setProp data "latest" latestConv else data
  let data :=
    if timeFromLatest ∧ (getProp (getProp data "versions") (toPropKey tagv)).truthy
    then setProp data "versions"
      (setProp (getProp data "versions") (toPropKey tagv) latestConv)
    else data
  -- line 226: starred = Object.keys(data.users || latest.users || {}).
  let data := setProp data "starred"
    (.arr ((objKeys (jsOr (getProp data "users") (jsOr (getProp latest "users") (.obj [])))).map .str))
  -- lines 232-234 (note the source deletes `readmeFile`, not
  -- `readmeFilename`).
  let data := if ¬ truthy (getProp data "readmeFilename") then delProp data "readmeFile" else data
  let data := if truthy (getProp data "_attachments") then delProp data "_attachments" else data
  let data := if ¬ truthy (getProp data "readme") then delProp data "readme" else data
  data

open JSVal in
/-- `normalize.packages` (`src/normalize/users.js:132-240`).  The
function mutates `data` in place and returns it, so the returned value
is also the final state of the caller's document.  The single point at
which it can throw is the `'latest' in data['dist-tags']` test of line
149: a `null` dist-tags value passes the `typeof` check of line 148
(`typeof null === 'object'`) and the `in` operator then raises a
`TypeError`. -/
def packages (data : JSVal) : Except String JSVal :=
  if ¬ truthy data ∨ toType data ≠ "object" then .ok (.obj []) else
  -- line 135: releases = Object.keys(data.versions || data.times || {}).
  let releases := objKeys (jsOr (getProp data "versions") (jsOr (getProp data "times") (.obj [])))
  -- lines 138-143: the filtered, descending-sorted list is computed
  -- and *discarded* (the source never assigns the result).
  let _sortedValid := Semver.sortDesc (releases.filter Semver.validLoose)
  -- line 148.
  let data :=
    if jsTypeof (getProp data "dist-tags") ≠ "object"
    then setProp data "dist-tags" (.obj []) else data
  -- line 149: `'latest' in data['dist-tags']` throws on null.
  (hasPropE (getProp data "dist-tags") "latest").bind fun hasLatest =>
    let data :=
      if ¬ hasLatest then
        setProp data "dist-tags"
          (setProp (getProp data "dist-tags") "latest"
            (match releases with
             | [] => JSVal.undefined
             | r :: _ => JSVal.str r))
      else data
    .ok (packagesRest data releases)

/-! ## Request executor (`src/index.js`)

`send` (lines 118-219) builds `[this.registry].concat(this.mirrors)`,
deduplicates it in `downgrade` (lines 229-262) and walks it one mirror
per failed attempt; on exhaustion `downgrade` hands back the primary
registry together with an error, and `send` then drives the external
`back` package: each backoff attempt re-requests
`url.resolve(this.registry, path)` — `options.uri` is recomputed from
the `root` argument, which is `registry.registry` in the exhausted
branch — until the attempt budget is spent.

The HTTP transport and JSON parsing are external; a scenario supplies
one `Resp` per issued request, a string body carrying its JSON parse
outcome. -/

/-- First index of `x` under `===` (`Array.prototype.indexOf`); the
list length if absent. -/
def jsIndexOf (x : JSVal) : List JSVal → Nat
  | [] => 0
  | y :: r => if JSVal.strictEq y x then 0 else jsIndexOf x r + 1

/-- The body of the `downgrade` dedupe filter: element `x` at index
`i` of the full list `all` is kept when it is truthy and `i` is its
first occurrence (`item && all.indexOf(item) === i`). -/
def dedupeGo (all : List JSVal) : Nat → List JSVal → List JSVal
  | _, [] => []
  | i, x :: r =>
      if x.truthy && (jsIndexOf x all == i)
      then x :: dedupeGo all (i + 1) r else dedupeGo all (i + 1) r

/-- The `downgrade` dedupe (`src/index.js:237-240`):
`mirrors.filter((item, i, all) => item && all.indexOf(item) === i)`. -/
def dedupeMirrors (l : List JSVal) : List JSVal := dedupeGo l 0 l

/-- Walk the list left to right keeping a truthy entry exactly when no
entry `===`-equal to it has been seen in the prefix walked so far
(`seen`). -/
def firstSeenGo : List JSVal → List JSVal → List JSVal
  | _, [] => []
  | seen, x :: r =>
      if x.truthy && !(seen.any fun y => JSVal.strictEq y x)
      then x :: firstSeenGo (seen ++ [x]) r else firstSeenGo (seen ++ [x]) r

/-- Definition following the spec's words ("the deduplicated pull
sequence contains each distinct truthy URL exactly once, in first-seen
order"): keep each truthy entry at its first occurrence only. -/
def specFirstSeen (l : List JSVal) : List JSVal := firstSeenGo [] l

/-- A response as seen by the `parse` callback: a transport error, a
missing response object, or a status code with a body.  A string body
carries the outcome of `JSON.parse` on it (JSON parsing is external to
the model). -/
inductive Resp : Type where
  | transportErr : Resp
  | missing : Resp
  | status : Nat → Resp
  | strBody : Nat → String → Option JSVal → Resp
  | jsonBody : Nat → JSVal → Resp

/-- What one invocation of `parse` (`src/index.js:171-195`) does. -/
inductive ParseStep : Type where
  /-- `return next()` — pull the next mirror. -/
  | next : ParseStep
  /-- `assign.write(data, { end: true })` — deliver to the caller. -/
  | deliver : JSVal → ParseStep
  /-- An exception escapes `parse` (uncaught inside the request
  callback). -/
  | crash : ParseStep

/-- The `parse` callback.  On a 200 string body that fails
`JSON.parse`, the catch block evaluates `err.message` — but `err` is
the callback's (falsy, hence `undefined`) first argument in this
branch, so the `debug(...)` line itself throws a `TypeError` before
`return next()` is reached. -/
def parseResp : Resp → ParseStep
  | .transportErr => .next
  | .missing => .next
  | .status c => if c = 200 then .next else .next
  | .strBody c _ j =>
      if c ≠ 200 then .next
      else match j with
        | some v => .deliver v
        | none => .crash
  | .jsonBody c v => if c ≠ 200 then .next else .deliver v

/-- The historical variant of the same callback
(`src/unnamed/part_002:150-183`), which destroys the assignment with a
terminal parse error instead: evidence of the intended behaviour. -/
inductive LegacyStep : Type where
  | deliver : JSVal → LegacyStep
  | terminalErr : LegacyStep

/-- The part_002 `parse`: any non-200/transport failure and any JSON
parse failure are terminal (`assign.destroy(err)`). -/
def parseLegacy : Resp → LegacyStep
  | .transportErr => .terminalErr
  | .missing => .terminalErr
  | .status _ => .terminalErr
  | .strBody c _ j =>
      if c ≠ 200 then .terminalErr
      else match j with
        | some v => .deliver v
        | none => .terminalErr
  | .jsonBody c v => if c ≠ 200 then .terminalErr else .deliver v

/-- `url.resolve(root, path)`, modelled as concatenation (the claims
depend only on which base URL each attempt uses). -/
def resolveUrl (base path : String) : String := base ++ path

/-- Client configuration relevant to `send`: the primary registry, the
mirror list and the retry ceiling. -/
structure SendCfg : Type where
  registry : String
  mirrors : List JSVal
  retries : Nat
  path : String

/-- Outcome of one logical `send`. -/
inductive SendOutcome : Type where
  | delivered : JSVal → SendOutcome
  /-- `assign.destroy(new Error('Failed to process request'))`. -/
  | terminal : SendOutcome
  /-- An exception escaped the response callback. -/
  | crashed : SendOutcome

/-- A finished run: the outcome plus the URL of every issued request,
in order. -/
structure SendRes : Type where
  outcome : SendOutcome
  trace : List String

/-- The backoff phase (`src/index.js:203-216` plus the external `back`
package).  Modelled from the spec: `back` increments an attempt
counter, sleeps, and re-invokes the callback, terminating with an
error once the counter exceeds `retries` — so exactly `retries`
further requests are issued (spec §4.2, §8), each against
`url.resolve(registry, path)`: `downgrade`'s exhausted branch passes
`registry.registry` as `root`, and `options.uri` is recomputed from it
on every re-entry. -/
def runBackoff (cfg : SendCfg) (net : Nat → Resp) :
    Nat → Nat → List String → SendRes
  | 0, _, trace => ⟨.terminal, trace⟩
  | b + 1, k, trace =>
      let uri := resolveUrl cfg.registry cfg.path
      match parseResp (net k) with
      | .next => runBackoff cfg net b (k + 1) (trace ++ [uri])
      | .deliver v => ⟨.delivered v, trace ++ [uri]⟩
      | .crash => ⟨.crashed, trace ++ [uri]⟩

/-- The mirror phase: `downgrade`'s `recursive` closure shifts one
mirror per failed attempt (`src/index.js:242-259`); `options.uri` is
`url.resolve(root, path)` for the pulled mirror. -/
def runMirrors (cfg : SendCfg) (net : Nat → Resp) :
    List JSVal → Nat → List String → SendRes
  | [], k, trace => runBackoff cfg net cfg.retries k trace
  | m :: rest, k, trace =>
      let uri := resolveUrl (JSVal.toPropKey m) cfg.path
      match parseResp (net k) with
      | .next => runMirrors cfg net rest (k + 1) (trace ++ [uri])
      | .deliver v => ⟨.delivered v, trace ++ [uri]⟩
      | .crash => ⟨.crashed, trace ++ [uri]⟩

/-- One logical `send` (`src/index.js:118-219`): dedupe
`[registry] ++ mirrors`, walk the mirrors, then back off against the
primary registry. -/
def sendRun (cfg : SendCfg) (net : Nat → Resp) : SendRes :=
  runMirrors cfg net (dedupeMirrors (.str cfg.registry :: cfg.mirrors)) 0 []

/-! ## Release materializer (`src/endpoints/packages.js:85-135`)

`Packages.prototype.releases` fetches and normalizes the package
document, then

* emits one record per `versions` entry — the *shared* version object,
  with `release.date = data.time[version]` assigned onto it in place;
* emits one `JSON.parse(JSON.stringify(...))` deep clone per dist-tag,
  with `date` and `tag` assigned onto the clone;
* maps every record to a fresh nine-field literal, reading
  `release.dist.shasum` (which throws when `dist` is nullish);
* reduces into a mapping keyed `release.tag || release.version`.

Two embeddings are given: a pure one (`releasesPure`), adequate for
throw/totality behaviour because the only in-place mutations are the
`date`/`tag` assignments (reproduced by updating the `versions` map,
whose entries the tag loop re-reads), and a store-based one
(`hReleases` below) for the claim about mutation independence of the
output records, which is about object identity. -/

/-- Depth fuel for the JSON-tree traversals below: structural
recursion on a fuel bound far beyond any nesting depth occurring in
registry documents, so the traversals reduce by iota steps. -/
def deepFuel : Nat := 1000000

/-- `JSON.parse(JSON.stringify(x))` on a defined value, with the
recursion depth bounded by fuel: drops `undefined`-valued object
fields, turns `undefined` array elements into `null`, and serializes
dates through `toJSON` (their ISO string, here the recorded raw
string). -/
def cleanValF : Nat → JSVal → JSVal
  | 0, _ => .null
  | fuel + 1, .obj fs =>
      .obj (fs.filterMap fun p =>
        match p.2 with
        | .undefined => none
        | _ => some (p.1, cleanValF fuel p.2))
  | fuel + 1, .arr xs => .arr (xs.map fun v => cleanValF fuel v)
  | _ + 1, .date t => .str t
  | _ + 1, .undefined => .null
  | _ + 1, v => v

/-- `JSON.parse(JSON.stringify(x))` on a defined value. -/
def cleanVal (v : JSVal) : JSVal := cleanValF deepFuel v

/-- The dist-tag deep clone.  `JSON.stringify(undefined)` is the value
`undefined`, and `JSON.parse` then throws a `SyntaxError` on the
coerced string `"undefined"`. -/
def jsonClone : JSVal → Except String JSVal
  | .undefined => .error "SyntaxError: Unexpected token u in JSON"
  | v => .ok (cleanVal v)

open JSVal in
/-- The `.map` step (`src/endpoints/packages.js:119-130`): a fresh
record literal per release; `release.dist.shasum` throws when `dist`
is `undefined` or `null`. -/
def mapRelease (rel : JSVal) : Except String JSVal := do
  let sh ← getPropE (getProp rel "dist") "shasum"
  return .obj
    [("tag", jsOr (getProp rel "tag") (.str "")),
     ("name", jsOr (getProp rel "name") (.str "")),
     ("version", jsOr (getProp rel "version") (.str "0.0.0")),
     ("shasum", jsOr sh (.str "")),
     ("dependencies", jsOr (getProp rel "dependencies") (.obj [])),
     ("license", jsOr (getProp rel "license") (getProp rel "licenses")),
     ("devDependencies", jsOr (getProp rel "devDependencies") (.obj [])),
     ("peerDependencies", jsOr (getProp rel "peerDependencies") (.obj [])),
     ("date", jsOr (getProp rel "date") (.str "1970-01-01T00:00:00.000Z"))]

/-- Apply `mapRelease` to every emitted record, failing on the first
record whose mapping throws (the `assign` stream applies the `.map`
callback to each row; an exception fails the operation). -/
def mapReleases : List JSVal → Except String (List JSVal)
  | [] => .ok []
  | r :: rest => do
      let y ← mapRelease r
      let ys ← mapReleases rest
      return y :: ys

open JSVal in
/-- The versions loop of `emit` (`src/endpoints/packages.js:92-97`):
`release = data.versions[version]; release.date = data.time[version]`.
The date assignment mutates the shared version object, so the fold
threads the updated `versions` map (the tag loop re-reads it); strict
mode makes the assignment throw on a primitive entry, and
`data.time[version]` throws when `data.time` is nullish. -/
def emitVersions (time : JSVal) : List String → JSVal → List JSVal →
    Except String (JSVal × List JSVal)
  | [], versions, recs => .ok (versions, recs)
  | v :: rest, versions, recs => do
      let rel := getProp versions v
      let tv ← getPropE time v
      let rel ← setPropE rel "date" tv
      emitVersions time rest (setProp versions v rel) (recs ++ [rel])

open JSVal in
/-- The dist-tag loop of `emit` (`src/endpoints/packages.js:102-116`),
guarded by `'dist-tags' in data`: for each tag, deep-clone
`data.versions[version]` (throwing when the version is missing —
`JSON.parse` of the stringified `undefined`), then assign `date` and
`tag` onto the clone.  `vs1` is the versions map after the versions
loop's in-place `date` assignments, which the clone reads. -/
def emitTags (d vs1 : JSVal) (hasdt : Bool) : Except String (List JSVal) :=
  if hasdt then
    let dt := getProp d "dist-tags"
    (objKeysE dt).bind fun tkeys =>
    tkeys.foldlM
      (fun recs k => do
        let ver := getProp dt k
        let clone ← jsonClone (getProp vs1 (toPropKey ver))
        let tv ← getPropE (getProp d "time") (toPropKey ver)
        let clone ← setPropE clone "date" tv
        let clone ← setPropE clone "tag" (.str k)
        pure (recs ++ [clone]))
      []
  else .ok []

open JSVal in
/-- The full materialization on a normalized document `d`
(`emits`/`map`/`reduce` composed; the `assign` stream applies them
row-wise, and any exception fails the whole operation). -/
def releasesPure (d : JSVal) : Except String JSVal :=
  -- line 87: if (!data.versions) return;   (no rows, empty reduce)
  let versions0 := getProp d "versions"
  if ¬ truthy versions0 then .ok (.obj []) else
  -- line 92: Object.keys(data.versions) — versions is truthy, hence
  -- non-nullish.
  (emitVersions (getProp d "time") (objKeys versions0) versions0 []).bind fun vv =>
  -- lines 102-116 (`vv.1` is the versions map after the in-place date
  -- assignments, `vv.2` the emitted version records).
  (hasPropE d "dist-tags").bind fun hasdt =>
  (emitTags d vv.1 hasdt).bind fun trecs =>
  -- lines 119-134: map then reduce.
  (mapReleases (vv.2 ++ trecs)).bind fun mapped =>
  .ok (mapped.foldl
    (fun memo rel =>
      setProp memo (toPropKey (jsOr (getProp rel "tag") (getProp rel "version"))) rel)
    (.obj []))

/-! ## A store semantics for the release materializer

The frame claim about `releases` ("mutating the tag-aliased record
does not alter the version record") is about object identity, which
the tree model cannot express.  This section re-runs the emit/map/
reduce pipeline against an explicit store: `HV.ref a` is a pointer to
the object at address `a`, allocation appends, and assignment updates
one address.  A normalized document is first allocated into the store
(adequate here because the emit code reads only `versions`, `time` and
`dist-tags`, none of which the normalization left aliased to each
other — the aliases it does create involve `created` and `latest`,
which `emit` never touches). -/

/-- Heap values: primitives, or a reference into the store. -/
inductive HV : Type where
  | undefined : HV
  | null : HV
  | bool : Bool → HV
  | num : Int → HV
  | str : String → HV
  | date : String → HV
  | ref : Nat → HV
deriving Repr, DecidableEq

/-- A heap object: a plain object's field list or an array's cells. -/
inductive HObj : Type where
  | fields : List (String × HV) → HObj
  | cells : List HV → HObj
deriving Repr

/-- The store: address `a` is the `a`-th allocated object. -/
abbrev HStore := List HObj

namespace HV

/-- Truthiness of a heap value (every object is truthy). -/
def truthy : HV → Bool
  | .undefined => false
  | .null => false
  | .bool b => b
  | .num n => n != 0
  | .str s => s ≠ ""
  | .date _ => true
  | .ref _ => true

/-- `a || b`. -/
def hOr (a b : HV) : HV := if truthy a then a else b

/-- Property-key coercion of a heap value (only strings and
`undefined` occur as dist-tag values in the claims). -/
def toKey : HV → String
  | .undefined => "undefined"
  | .null => "null"
  | .bool b => if b then "true" else "false"
  | .num n => toString n
  | .str s => s
  | .date s => s
  | .ref _ => "[object Object]"

end HV

/-- First-match lookup in a heap object's field list. -/
def hFind : List (String × HV) → String → Option HV
  | [], _ => none
  | (k, v) :: r, key => if k = key then some v else hFind r key

/-- Update-or-append in a heap object's field list. -/
def hFieldSet : List (String × HV) → String → HV → List (String × HV)
  | [], key, v => [(key, v)]
  | (k, w) :: r, key, v =>
      if k = key then (k, v) :: r else (k, w) :: hFieldSet r key v

/-- Read the object at an address. -/
def storeGet (s : HStore) (a : Nat) : Option HObj := s.get? a

/-- Replace the object at an address. -/
def storeSet (s : HStore) (a : Nat) (o : HObj) : HStore := s.set a o

/-- Property read through the store; throws on a nullish base. -/
def hGetProp (s : HStore) (v : HV) (key : String) : Except String HV :=
  match v with
  | .undefined => .error ("TypeError: cannot read property " ++ key ++ " of undefined")
  | .null => .error ("TypeError: cannot read property " ++ key ++ " of null")
  | .ref a =>
      match storeGet s a with
      | some (.fields fs) => .ok ((hFind fs key).getD .undefined)
      | some (.cells xs) =>
          .ok (match JSVal.numKey key with
               | some i => (xs.drop i).headD .undefined
               | none => if key = "length" then .num xs.length else .undefined)
      | none => .ok .undefined
  | .str s0 =>
      .ok (match JSVal.numKey key with
           | some i =>
               if i < s0.length then .str (String.mk [(s0.toList.drop i).headD ' ']) else .undefined
           | none => if key = "length" then .num s0.length else .undefined)
  | _ => .ok .undefined

/-- Strict-mode property assignment through the store: updates the
object at the referenced address in place; throws on primitives.
(An assignment onto an array would attach an expando property; the
release pipeline only ever assigns onto plain objects.) -/
def hSetProp (s : HStore) (v : HV) (key : String) (w : HV) :
    Except String HStore :=
  match v with
  | .ref a =>
      match storeGet s a with
      | some (.fields fs) => .ok (storeSet s a (.fields (hFieldSet fs key w)))
      | _ => .ok s
  | other => .error ("TypeError: cannot create property " ++ key ++ " on " ++
      (match other with | .undefined => "undefined" | .null => "null" | _ => "primitive"))

/-- `Object.keys` through the store (throws on nullish arguments). -/
def hObjKeysE (s : HStore) (v : HV) : Except String (List String) :=
  match v with
  | .undefined => .error "TypeError: Object.keys called on undefined"
  | .null => .error "TypeError: Object.keys called on null"
  | .ref a =>
      .ok (match storeGet s a with
           | some (.fields fs) => fs.map Prod.fst
           | some (.cells xs) => (List.range xs.length).map toString
           | none => [])
  | .str s0 => .ok ((List.range s0.length).map toString)
  | _ => .ok []

/-- The `in` operator through the store. -/
def hHasPropE (s : HStore) (v : HV) (key : String) : Except String Bool :=
  match v with
  | .ref a =>
      .ok (match storeGet s a with
           | some (.fields fs) => (hFind fs key).isSome
           | some (.cells xs) =>
               (JSVal.numKey key).elim false (· < xs.length) || key = "length"
           | none => false)
  | .date _ => .ok false
  | _ => .error "TypeError: cannot use in operator"

/-- Allocate a JSON tree into the store (children first via a
left-to-right fold, so every reference points to a strictly smaller
address than its parent), fuel-bounded like `cleanValF`. -/
def hAllocValF : Nat → JSVal → HStore → HV × HStore
  | 0, _, s => (.undefined, s)
  | fuel + 1, .obj fs, s =>
      let p := fs.foldl
        (fun (acc : List (String × HV) × HStore) kv =>
          let q := hAllocValF fuel kv.2 acc.2
          (acc.1 ++ [(kv.1, q.1)], q.2)) ([], s)
      (.ref p.2.length, p.2 ++ [.fields p.1])
  | fuel + 1, .arr xs, s =>
      let p := xs.foldl
        (fun (acc : List HV × HStore) v =>
          let q := hAllocValF fuel v acc.2
          (acc.1 ++ [q.1], q.2)) ([], s)
      (.ref p.2.length, p.2 ++ [.cells p.1])
  | _ + 1, .undefined, s => (.undefined, s)
  | _ + 1, .null, s => (.null, s)
  | _ + 1, .bool b, s => (.bool b, s)
  | _ + 1, .num n, s => (.num n, s)
  | _ + 1, .str t, s => (.str t, s)
  | _ + 1, .date t, s => (.date t, s)

/-- Allocate a JSON tree into the store. -/
def hAllocVal (v : JSVal) (s : HStore) : HV × HStore := hAllocValF deepFuel v s

/-- Read a value back out of the store as a JSON tree, with a fuel
bound on the dereferencing depth (the stores built here are acyclic:
allocation only ever creates references to older addresses, and the
pipeline assigns only primitive values into existing objects). -/
def hRead (s : HStore) : Nat → HV → JSVal
  | 0, _ => .undefined
  | _, .undefined => .undefined
  | _, .null => .null
  | _, .bool b => .bool b
  | _, .num n => .num n
  | _, .str t => .str t
  | _, .date t => .date t
  | fuel + 1, .ref a =>
      match storeGet s a with
      | some (.fields fs) => .obj (fs.map fun p => (p.1, hRead s fuel p.2))
      | some (.cells xs) => .arr (xs.map (hRead s fuel))
      | none => .undefined

/-- Addresses reachable from a heap value within `fuel` dereferences
(the same recursion pattern as `hRead`, so a value whose reachable set
avoids an address never reads that address back). -/
def hReach (s : HStore) : Nat → HV → List Nat
  | 0, _ => []
  | fuel + 1, .ref a =>
      a :: (match storeGet s a with
            | some (.fields fs) => (fs.map fun p => hReach s fuel p.2).flatten
            | some (.cells xs) => (xs.map (hReach s fuel)).flatten
            | none => [])
  | _, _ => []

/-- Allocate a fresh empty object (`{}`). -/
def hAllocEmpty (s : HStore) : HV × HStore := (.ref s.length, s ++ [.fields []])

/-- `JSON.parse(JSON.stringify(x))` through the store: read the value
back (with fuel one past the store size — ample, the store is
acyclic), serialize (dropping `undefined` fields, dates to strings,
`undefined` itself a `SyntaxError`), and allocate the fresh copy. -/
def hClone (v : HV) (s : HStore) : Except String (HV × HStore) :=
  match v with
  | .undefined => .error "SyntaxError: Unexpected token u in JSON"
  | v =>
      let tree := cleanVal (hRead s (s.length + 1) v)
      .ok (hAllocVal tree s)

open HV in
/-- The `.map` step against the store
(`src/endpoints/packages.js:119-130`): a freshly allocated nine-field
record; `release.dist.shasum` throws when `dist` is nullish;
`release.dependencies || {}` shares the existing dependencies object
when truthy and allocates a fresh `{}` otherwise (likewise
`devDependencies` and `peerDependencies`).  The store is threaded
explicitly; the record's field reads never depend on the appended
allocations, so reading them all against the incoming store matches
the literal's left-to-right evaluation. -/
def hMapRelease (rel : HV) (s : HStore) : Except String (HV × HStore) :=
  (hGetProp s rel "tag").bind fun tag =>
  (hGetProp s rel "name").bind fun name =>
  (hGetProp s rel "version").bind fun version =>
  (hGetProp s rel "dist").bind fun dist =>
  (hGetProp s dist "shasum").bind fun sh =>
  (hGetProp s rel "dependencies").bind fun deps0 =>
  (hGetProp s rel "license").bind fun lic0 =>
  (hGetProp s rel "licenses").bind fun lic1 =>
  (hGetProp s rel "devDependencies").bind fun dd0 =>
  (hGetProp s rel "peerDependencies").bind fun pd0 =>
  (hGetProp s rel "date").bind fun date0 =>
  let p1 := if deps0.truthy then (deps0, s) else hAllocEmpty s
  let p2 := if dd0.truthy then (dd0, p1.2) else hAllocEmpty p1.2
  let p3 := if pd0.truthy then (pd0, p2.2) else hAllocEmpty p2.2
  let o : HObj := .fields
    [("tag", hOr tag (.str "")),
     ("name", hOr name (.str "")),
     ("version", hOr version (.str "0.0.0")),
     ("shasum", hOr sh (.str "")),
     ("dependencies", p1.1),
     ("license", hOr lic0 lic1),
     ("devDependencies", p2.1),
     ("peerDependencies", p3.1),
     ("date", hOr date0 (.str "1970-01-01T00:00:00.000Z"))]
  .ok (.ref p3.2.length, p3.2 ++ [o])

/-- `.map` over all emitted records, in order. -/
def hMapAll : List HV → HStore → Except String (List HV × HStore)
  | [], s => .ok ([], s)
  | r :: rest, s =>
      (hMapRelease r s).bind fun p =>
      (hMapAll rest p.2).bind fun q =>
      .ok (p.1 :: q.1, q.2)

/-- The versions loop of `emit` against the store
(`src/endpoints/packages.js:92-97`): the emitted record is the
*shared* object inside `versions`, and `release.date =
data.time[version]` mutates it in place. -/
def hEmitVersions (dref versions : HV) : List String → HStore → List HV →
    Except String (List HV × HStore)
  | [], s, recs => .ok (recs, s)
  | v :: rest, s, recs =>
      (hGetProp s versions v).bind fun rel =>
      (hGetProp s dref "time").bind fun time =>
      (hGetProp s time v).bind fun tv =>
      (hSetProp s rel "date" tv).bind fun s2 =>
      hEmitVersions dref versions rest s2 (recs ++ [rel])

open HV in
/-- The dist-tag loop of `emit` against the store
(`src/endpoints/packages.js:102-116`): deep-clone
`data.versions[version]`, then assign `date` and `tag` onto the
clone. -/
def hEmitTags (dref versions dt : HV) : List String → HStore → List HV →
    Except String (List HV × HStore)
  | [], s, recs => .ok (recs, s)
  | k :: rest, s, recs =>
      (hGetProp s dt k).bind fun ver =>
      (hGetProp s versions ver.toKey).bind fun target =>
      (hClone target s).bind fun pc =>
      (hGetProp pc.2 dref "time").bind fun time =>
      (hGetProp pc.2 time ver.toKey).bind fun tv =>
      (hSetProp pc.2 pc.1 "date" tv).bind fun s2 =>
      (hSetProp s2 pc.1 "tag" (.str k)).bind fun s3 =>
      hEmitTags dref versions dt rest s3 (recs ++ [pc.1])

open HV in
/-- The reduce step against the store: a mapping keyed
`release.tag || release.version`, later insertions overwriting. -/
def hReduce (s : HStore) : List HV → List (String × HV) →
    Except String (List (String × HV))
  | [], memo => .ok memo
  | r :: rest, memo =>
      (hGetProp s r "tag").bind fun tag =>
      (hGetProp s r "version").bind fun ver =>
      hReduce s rest (hFieldSet memo (toKey (hOr tag ver)) r)

/-- The whole `releases` body against the store: allocate the
normalized document, run the emit loops (shared version records, deep
tag clones), map each record, and reduce into the keyed mapping.  The
store is threaded explicitly. -/
def hReleases (d : JSVal) (s : HStore) :
    Except String (List (String × HV) × HStore) :=
  let pd := hAllocVal d s
  (hGetProp pd.2 pd.1 "versions").bind fun versions =>
  if ¬ versions.truthy then .ok ([], pd.2) else
  (hObjKeysE pd.2 versions).bind fun vkeys =>
  (hEmitVersions pd.1 versions vkeys pd.2 []).bind fun pv =>
  (hHasPropE pv.2 pd.1 "dist-tags").bind fun hasdt =>
  (if hasdt then
    (hGetProp pv.2 pd.1 "dist-tags").bind fun dt =>
    (hObjKeysE pv.2 dt).bind fun tkeys =>
    hEmitTags pd.1 versions dt tkeys pv.2 []
   else .ok ([], pv.2)).bind fun pt =>
  (hMapAll (pv.1 ++ pt.1) pt.2).bind fun pm =>
  (hReduce pm.2 pm.1 []).bind fun memo =>
  .ok (memo, pm.2)

/-! ## Derived operations, concrete documents and extractors -/

/-- The public `releases` operation
(`Packages.prototype.releases = this.get(name).emits(...).map(...)
.reduce(...)`, with `get` applying `normalize.packages`): normalize
the fetched document, then materialize. -/
def releasesOp (x : JSVal) : Except String JSVal :=
  (packages x).bind releasesPure

/-- Does a release record lack a readable `dist` object (so that
`release.dist.shasum` throws)? -/
def lacksDist (rel : JSVal) : Bool :=
  match JSVal.getProp rel "dist" with
  | .undefined => true
  | .null => true
  | _ => false

/-- Well-formedness of a normalization result: an object whose
defaulted fields (the `forEach` table plus the synthesized `releases`,
`starred` and `dist-tags` fields), when present, have the runtime
shape of their defaults — §3's invariant "every defaulted field's
runtime shape matches its declared default's shape". -/
def wellFormedPackage : JSVal → Bool
  | .obj fs =>
      (transforms.all fun t =>
        match JSVal.assocFind fs t.1 with
        | none => true
        | some x => x.toType = t.2.toType) &&
      (match JSVal.assocFind fs "releases" with
       | none => true
       | some x => x.toType = "array") &&
      (match JSVal.assocFind fs "starred" with
       | none => true
       | some x => x.toType = "array") &&
      (match JSVal.assocFind fs "dist-tags" with
       | none => true
       | some x => x.toType = "object")
  | _ => false

/-- The §8 end-to-end document of claim C3. -/
def docC3 : JSVal := .obj
  [("name", .str "x"),
   ("versions", .obj [("1.0.0", .obj []), ("2.0.0", .obj [])]),
   ("time", .obj [("1.0.0", .str "2020-01-01T00:00:00Z"),
                  ("2.0.0", .str "2021-01-01T00:00:00Z")])]

/-- The six totality probes of claim C4 (JavaScript `undefined`,
`null`, `[]`, `"string"`, `{}` and `{versions: "not-an-object"}`). -/
def probesC4 : List JSVal :=
  [.undefined, .null, .arr [], .str "string", .obj [],
   .obj [("versions", .str "not-an-object")]]

/-- An object whose `dist-tags` is `null` — it passes the
`typeof === 'object'` guard and makes the `in` operator throw. -/
def distTagsNull : JSVal := .obj [("dist-tags", .null)]

/-- A document whose release identifiers come from `times` (claim C5's
counterexample): the first normalization defaults `versions` to `{}`,
which masks `times` on a second pass. -/
def timesOnlyDoc : JSVal := .obj
  [("times", .obj [("1.0.0", .str "2020-01-01T00:00:00Z")])]

/-- The value under `.ok`, with `undefined` for errors. -/
def okValD : Except String JSVal → JSVal
  | .ok v => v
  | .error _ => .undefined

/-- Length of the `releases` array of a normalization result
(sentinel values for other shapes) — a discriminator separating the
two sides of C5's counterexample. -/
def relLen (e : Except String JSVal) : Nat :=
  match e with
  | .ok v =>
      match JSVal.getProp v "releases" with
      | .arr xs => xs.length
      | _ => 1000
  | .error _ => 2000

/-- The claim C7 package: one version `1.0.0` (with `dist.shasum` and
a dependency map) and `dist-tags = {latest: "1.0.0"}`. -/
def pkgC7 : JSVal := .obj
  [("versions", .obj
     [("1.0.0", .obj
        [("name", .str "x"), ("version", .str "1.0.0"),
         ("dist", .obj [("shasum", .str "abc")]),
         ("dependencies", .obj [("foo", .str "1.x")])])]),
   ("dist-tags", .obj [("latest", .str "1.0.0")])]

/-- The C7 store run: normalize `pkgC7`, then materialize against an
empty store. -/
def c7run : Except String (List (String × HV) × HStore) :=
  match packages pkgC7 with
  | .ok d => hReleases d []
  | .error e => .error e

/-- The C7 result mapping. -/
def c7memo : List (String × HV) := match c7run with | .ok (m, _) => m | .error _ => []

/-- The C7 final store. -/
def c7store : HStore := match c7run with | .ok (_, s) => s | .error _ => []

/-- Address of the record stored under a key of the C7 mapping. -/
def c7addrOf (k : String) : Nat :=
  match hFind c7memo k with | some (.ref a) => a | _ => 0

/-- Enough dereferencing fuel for the (acyclic) C7 store. -/
def c7fuel : Nat := c7store.length + 1

/-- Mutate one field of the object at address `a`: the store-level
meaning of `record.f = w`. -/
def hMutField (s : HStore) (a : Nat) (f : String) (w : HV) : HStore :=
  match storeGet s a with
  | some (.fields fs) => storeSet s a (.fields (hFieldSet fs f w))
  | _ => s

/-- A package whose only version object has no `dist` (claim C10's
witness input). -/
def pkgNoDist : JSVal := .obj
  [("versions", .obj [("1.0.0", .obj [])]),
   ("dist-tags", .obj [("latest", .str "1.0.0")])]

/-- Claim C1's scenario: a single registry whose response is a 200
with a string body that fails `JSON.parse`. -/
def cfgC1 : SendCfg := ⟨"registry/", [], 3, "pkg"⟩

/-- The network for C1: every request yields the malformed 200. -/
def netC1 : Nat → Resp := fun _ => .strBody 200 "<html>" none

/-- Claim C2's scenario: a primary, one mirror, retry ceiling 2. -/
def cfgC2 : SendCfg := ⟨"r/", [.str "m/"], 2, "p"⟩

/-- The network for C2: every request fails with a 500. -/
def netC2 : Nat → Resp := fun _ => .status 500

/-! ## Supporting lemmas: mirror deduplication -/

/-- `===` is reflexive on primitive values (on objects it is reference
equality, excluded by the primitivity hypotheses). -/
theorem strictEq_self {x : JSVal} (h : x.isPrim = true) :
    JSVal.strictEq x x = true := by
  cases x <;> simp_all [JSVal.isPrim, JSVal.strictEq]

/-- `indexOf` skips a prefix containing no `===`-match. -/
theorem jsIndexOf_append {x : JSVal} :
    ∀ pre rest : List JSVal, (∀ y ∈ pre, JSVal.strictEq y x = false) →
      jsIndexOf x (pre ++ rest) = pre.length + jsIndexOf x rest := by
  intro pre
  induction pre with
  | nil => intro rest _; simp
  | cons z pre ih =>
      intro rest h
      have hz : JSVal.strictEq z x = false := h z (by simp)
      have step : jsIndexOf x ((z :: pre) ++ rest) = jsIndexOf x (pre ++ rest) + 1 := by
        show (if JSVal.strictEq z x = true then 0 else jsIndexOf x (pre ++ rest) + 1) =
          jsIndexOf x (pre ++ rest) + 1
        rw [hz]
        simp
      rw [step, ih rest fun y hy => h y (List.mem_cons_of_mem _ hy)]
      simp
      omega

/-- `indexOf` lands inside a prefix that contains an `===`-match. -/
theorem jsIndexOf_lt {x : JSVal} :
    ∀ pre rest : List JSVal, (∃ y ∈ pre, JSVal.strictEq y x = true) →
      jsIndexOf x (pre ++ rest) < pre.length := by
  intro pre
  induction pre with
  | nil => intro rest h; simp at h
  | cons z pre ih =>
      intro rest h
      by_cases hz : JSVal.strictEq z x = true
      · have step : jsIndexOf x ((z :: pre) ++ rest) = 0 := by
          show (if JSVal.strictEq z x = true then 0 else jsIndexOf x (pre ++ rest) + 1) = 0
          rw [if_pos hz]
        rw [step]
        simp
      · have hzf : JSVal.strictEq z x = false := by
          revert hz; cases JSVal.strictEq z x <;> simp
        have step : jsIndexOf x ((z :: pre) ++ rest) = jsIndexOf x (pre ++ rest) + 1 := by
          show (if JSVal.strictEq z x = true then 0 else jsIndexOf x (pre ++ rest) + 1) =
            jsIndexOf x (pre ++ rest) + 1
          rw [hzf]
          simp
        obtain ⟨y, hy, hyx⟩ := h
        rcases List.mem_cons.mp hy with hy | hy
        · exact absurd (hy ▸ hyx) hz
        · have := ih rest ⟨y, hy, hyx⟩
          rw [step]
          simp only [List.length_cons]
          omega

/-- The index-based filter of `downgrade` agrees with the first-seen
walk, step by step: `seen` is the already-processed prefix of the full
list. -/
theorem dedupeGo_eq_firstSeenGo (l : List JSVal)
    (hprim : ∀ x ∈ l, JSVal.isPrim x = true) :
    ∀ suff seen : List JSVal, l = seen ++ suff →
      dedupeGo l seen.length suff = firstSeenGo seen suff := by
  intro suff
  induction suff with
  | nil => intro seen _; rfl
  | cons x r ih =>
      intro seen hl
      have hx : x ∈ l := hl ▸ (by simp)
      have hnext : l = (seen ++ [x]) ++ r := by simp [hl]
      have hlen : (seen ++ [x]).length = seen.length + 1 := by simp
      have ihn : dedupeGo l (seen.length + 1) r = firstSeenGo (seen ++ [x]) r := by
        rw [← hlen, ih (seen ++ [x]) hnext]
      by_cases hseen : ∃ y ∈ seen, JSVal.strictEq y x = true
      · -- a match earlier in the prefix: both sides skip.
        have hidx : jsIndexOf x l < seen.length := hl ▸ jsIndexOf_lt seen (x :: r) hseen
        have hbeq : (jsIndexOf x l == seen.length) = false := by
          simp only [beq_eq_false_iff_ne, ne_eq]
          omega
        have hany : (seen.any fun y => JSVal.strictEq y x) = true :=
          List.any_eq_true.mpr (by simpa using hseen)
        show (if x.truthy && (jsIndexOf x l == seen.length)
              then x :: dedupeGo l (seen.length + 1) r else dedupeGo l (seen.length + 1) r) =
          (if x.truthy && !(seen.any fun y => JSVal.strictEq y x)
           then x :: firstSeenGo (seen ++ [x]) r else firstSeenGo (seen ++ [x]) r)
        rw [hbeq, hany, ihn]
        simp
      · -- first occurrence: kept by both exactly when truthy.
        have hnone : ∀ y ∈ seen, JSVal.strictEq y x = false := by
          intro y hy
          by_contra hc
          exact hseen ⟨y, hy, by revert hc; cases JSVal.strictEq y x <;> simp⟩
        have hidx : jsIndexOf x l = seen.length := by
          have hstep : jsIndexOf x (x :: r) = 0 := by
            show (if JSVal.strictEq x x = true then 0 else jsIndexOf x r + 1) = 0
            rw [if_pos (strictEq_self (hprim x hx))]
          rw [hl, jsIndexOf_append seen (x :: r) hnone, hstep]
          omega
        have hany : (seen.any fun y => JSVal.strictEq y x) = false := by
          simp only [List.any_eq_false]
          intro y hy
          simpa using hnone y hy
        show (if x.truthy && (jsIndexOf x l == seen.length)
              then x :: dedupeGo l (seen.length + 1) r else dedupeGo l (seen.length + 1) r) =
          (if x.truthy && !(seen.any fun y => JSVal.strictEq y x)
           then x :: firstSeenGo (seen ++ [x]) r else firstSeenGo (seen ++ [x]) r)
        rw [hany, hidx, ihn]
        simp

/-! ## Supporting lemmas: association lists and property updates -/

/-- `Except.ok` feeds straight through `bind`. -/
theorem exceptBind_ok {α β ε : Type} (a : α) (f : α → Except ε β) :
    (Except.ok a >>= f) = f a := rfl

/-- `Except.error` short-circuits `bind`. -/
theorem exceptBind_error {α β ε : Type} (e : ε) (f : α → Except ε β) :
    ((Except.error e : Except ε α) >>= f) = .error e := rfl

/-- `Except.ok` feeds straight through the `.bind` method. -/
theorem exceptBindF_ok {α β ε : Type} (a : α) (f : α → Except ε β) :
    (Except.ok a).bind f = f a := rfl

/-- `Except.error` short-circuits the `.bind` method. -/
theorem exceptBindF_error {α β ε : Type} (e : ε) (f : α → Except ε β) :
    (Except.error e : Except ε α).bind f = .error e := rfl

/-- `isOk` of an error. -/
theorem except_isOk_error {α ε : Type} (e : ε) :
    (Except.error e : Except ε α).isOk = false := rfl

/-- A successful strict-mode assignment is the plain update. -/
theorem setPropE_ok {v w rel : JSVal} {k : String}
    (h : JSVal.setPropE v k w = Except.ok rel) :
    rel = JSVal.setProp v k w := by
  cases v <;> simp only [JSVal.setPropE] at h <;> first
    | (injection h with h2; exact h2.symm)
    | exact Except.noConfusion h

/-- Looking up a key other than the one just set is unchanged. -/
theorem assocFind_assocSet_ne (fs : List (String × JSVal)) {k k' : String}
    (h : k ≠ k') (w : JSVal) :
    JSVal.assocFind (JSVal.assocSet fs k w) k' = JSVal.assocFind fs k' := by
  induction fs with
  | nil => simp [JSVal.assocSet, JSVal.assocFind, h]
  | cons p fs ih =>
      by_cases hp : p.1 = k
      · simp [JSVal.assocSet, JSVal.assocFind, hp, h]
      · simp only [JSVal.assocSet, JSVal.assocFind]
        rw [if_neg hp]
        by_cases hp' : p.1 = k'
        · simp [JSVal.assocFind, hp']
        · simp [JSVal.assocFind, hp', ih]

/-- Looking up the key just set yields the new value. -/
theorem assocFind_assocSet_self (fs : List (String × JSVal)) (k : String) (w : JSVal) :
    JSVal.assocFind (JSVal.assocSet fs k w) k = some w := by
  induction fs with
  | nil => simp [JSVal.assocSet, JSVal.assocFind]
  | cons p fs ih =>
      by_cases hp : p.1 = k
      · simp [JSVal.assocSet, JSVal.assocFind, hp]
      · simp [JSVal.assocSet, JSVal.assocFind, hp, ih]

/-- Reading a key other than the one just assigned is unchanged
(for every value shape — non-objects ignore the assignment). -/
theorem getProp_setProp_ne (v : JSVal) {k k' : String} (h : k ≠ k') (w : JSVal) :
    JSVal.getProp (JSVal.setProp v k w) k' = JSVal.getProp v k' := by
  cases v <;> simp [JSVal.setProp, JSVal.getProp, assocFind_assocSet_ne _ h]

/-- Reading back the key just assigned on an object yields the new
value. -/
theorem getProp_setProp_self (fs : List (String × JSVal)) (k : String) (w : JSVal) :
    JSVal.getProp (JSVal.setProp (.obj fs) k w) k = w := by
  simp [JSVal.setProp, JSVal.getProp, assocFind_assocSet_self]

/-- A found binding's key is among the keys. -/
theorem assocFind_mem_keys {fs : List (String × JSVal)} {v : String} {rel : JSVal}
    (h : JSVal.assocFind fs v = some rel) : v ∈ fs.map Prod.fst := by
  induction fs with
  | nil => simp [JSVal.assocFind] at h
  | cons p fs ih =>
      by_cases hp : p.1 = v
      · simp [hp]
      · simp only [JSVal.assocFind] at h
        rw [if_neg hp] at h
        simp [ih h]

/-- Setting `date` cannot create or destroy a `dist` property. -/
theorem lacksDist_setProp_date (rel : JSVal) (tv : JSVal) :
    lacksDist (JSVal.setProp rel "date" tv) = lacksDist rel := by
  unfold lacksDist
  rw [getProp_setProp_ne rel (by decide) tv]

/-! ## Supporting lemmas: the emit/map pipeline -/

/-- Records already accumulated survive the rest of the versions
loop. -/
theorem emitVersions_mono {time : JSVal} :
    ∀ (keys : List String) (versions : JSVal) (recs : List JSVal)
      (vs2 : JSVal) (recs2 : List JSVal),
      emitVersions time keys versions recs = .ok (vs2, recs2) →
      ∀ r ∈ recs, r ∈ recs2 := by
  intro keys
  induction keys with
  | nil =>
      intro versions recs vs2 recs2 h r hr
      simp only [emitVersions] at h
      cases h
      exact hr
  | cons u rest ih =>
      intro versions recs vs2 recs2 h r hr
      simp only [emitVersions] at h
      cases htv : JSVal.getPropE time u with
      | error e => rw [htv, exceptBind_error] at h; exact Except.noConfusion h
      | ok tv =>
          rw [htv, exceptBind_ok] at h
          cases hset : JSVal.setPropE (JSVal.getProp versions u) "date" tv with
          | error e => rw [hset, exceptBind_error] at h; exact Except.noConfusion h
          | ok rel1 =>
              rw [hset, exceptBind_ok] at h
              exact ih _ _ _ _ h r (List.mem_append_left _ hr)

/-- If some `versions` entry lacks a readable `dist`, the versions
loop — when it finishes at all — has pushed a record lacking `dist`. -/
theorem emitVersions_offender {time : JSVal} :
    ∀ (keys : List String) (versions : JSVal) (recs : List JSVal)
      (vs2 : JSVal) (recs2 : List JSVal) (v : String),
      v ∈ keys → lacksDist (JSVal.getProp versions v) = true →
      emitVersions time keys versions recs = .ok (vs2, recs2) →
      ∃ r ∈ recs2, lacksDist r = true := by
  intro keys
  induction keys with
  | nil => intro _ _ _ _ v hv; simp at hv
  | cons u rest ih =>
      intro versions recs vs2 recs2 v hv hld h
      simp only [emitVersions] at h
      cases htv : JSVal.getPropE time u with
      | error e => rw [htv, exceptBind_error] at h; exact Except.noConfusion h
      | ok tv =>
          rw [htv, exceptBind_ok] at h
          cases hset : JSVal.setPropE (JSVal.getProp versions u) "date" tv with
          | error e => rw [hset, exceptBind_error] at h; exact Except.noConfusion h
          | ok rel1 =>
              rw [hset, exceptBind_ok] at h
              by_cases huv : u = v
              · -- the offender is processed right now; `setPropE`
                -- succeeded, so the entry is an object or array, and
                -- adding `date` preserves the missing `dist`.
                subst huv
                have hld1 : lacksDist rel1 = true := by
                  rw [setPropE_ok hset, lacksDist_setProp_date]
                  exact hld
                exact ⟨rel1, emitVersions_mono _ _ _ _ _ h rel1 (by simp), hld1⟩
              · -- a different key: the offender's entry is untouched.
                have hunch : lacksDist (JSVal.getProp (JSVal.setProp versions u rel1) v) = true := by
                  rw [getProp_setProp_ne versions huv rel1]
                  exact hld
                rcases List.mem_cons.mp hv with hv' | hv'
                · exact absurd hv'.symm huv
                · exact ih _ _ _ _ v hv' hunch h

/-- A record with no readable `dist` fails the `.map` step. -/
theorem mapRelease_error_of_lacksDist {rel : JSVal} (h : lacksDist rel = true) :
    (mapRelease rel).isOk = false := by
  unfold lacksDist at h
  unfold mapRelease
  cases hd : JSVal.getProp rel "dist" <;> rw [hd] at h <;>
    first
      | exact Bool.noConfusion h
      | rfl

/-- `mapReleases` fails whenever any member fails. -/
theorem mapReleases_error_of_mem :
    ∀ (l : List JSVal) (r : JSVal), r ∈ l → (mapRelease r).isOk = false →
      (mapReleases l).isOk = false := by
  intro l
  induction l with
  | nil => intro r hr; simp at hr
  | cons z rest ih =>
      intro r hr hfail
      simp only [mapReleases]
      rcases List.mem_cons.mp hr with hz | hz
      · subst hz
        cases hm : mapRelease r with
        | error e => rw [exceptBind_error]; rfl
        | ok y => rw [hm] at hfail; exact absurd hfail (by simp [Except.isOk, Except.toBool])
      · cases hm : mapRelease z with
        | error e => rw [exceptBind_error]; rfl
        | ok y =>
            rw [exceptBind_ok]
            cases hrest : mapReleases rest with
            | error e => rw [exceptBind_error]; rfl
            | ok ys =>
                have := ih r hz hfail
                rw [hrest] at this
                exact absurd this (by simp [Except.isOk, Except.toBool])

/-! ## Supporting lemmas: the store frame property -/

/-- Updating an address outside a value's reachable set does not
change what the value reads back to. -/
theorem hRead_frame (b : Nat) (o2 : HObj) :
    ∀ (fuel : Nat) (s : HStore) (v : HV), b ∉ hReach s fuel v →
      hRead (storeSet s b o2) fuel v = hRead s fuel v := by
  intro fuel
  induction fuel with
  | zero => intro s v _; cases v <;> rfl
  | succ n ih =>
      intro s v hb
      cases v with
      | ref a =>
          have hab : b ≠ a := by
            intro he
            exact hb (by simp [hReach, he])
          have hget : storeGet (storeSet s b o2) a = storeGet s a := by
            unfold storeGet storeSet
            exact List.get?_set_ne o2 s hab
          cases hsa : storeGet s a with
          | none => simp [hRead, hget, hsa]
          | some o =>
              cases o with
              | fields fs =>
                  have hmem : ∀ p ∈ fs, b ∉ hReach s n p.2 := by
                    intro p hp hbp
                    apply hb
                    simp only [hReach, hsa]
                    right
                    exact List.mem_flatten.mpr ⟨_, List.mem_map.mpr ⟨p, hp, rfl⟩, hbp⟩
                  simp only [hRead, hget, hsa]
                  congr 1
                  exact List.map_congr_left fun p hp => by rw [ih s p.2 (hmem p hp)]
              | cells xs =>
                  have hmem : ∀ z ∈ xs, b ∉ hReach s n z := by
                    intro z hz hbz
                    apply hb
                    simp only [hReach, hsa]
                    right
                    exact List.mem_flatten.mpr ⟨_, List.mem_map.mpr ⟨z, hz, rfl⟩, hbz⟩
                  simp only [hRead, hget, hsa]
                  congr 1
                  exact List.map_congr_left fun z hz => ih s z (hmem z hz)
      | undefined => rfl
      | null => rfl
      | bool _ => rfl
      | num _ => rfl
      | str _ => rfl
      | date _ => rfl

/-- Mutating one field of the object at an unreachable address leaves
a record's readback unchanged. -/
theorem hMutField_frame (s : HStore) (a b : Nat) (fuel : Nat) (f : String) (w : HV)
    (h : b ∉ hReach s fuel (.ref a)) :
    hRead (hMutField s b f w) fuel (.ref a) = hRead s fuel (.ref a) := by
  unfold hMutField
  cases hg : storeGet s b with
  | none => rfl
  | some o =>
      cases o with
      | fields fs => exact hRead_frame b _ fuel s _ h
      | cells xs => rfl

/-! ## The claims -/

/-- C1.  The claim says a 200 response whose string body fails to
parse as JSON yields a terminal error to the caller with no retry.
The code (`src/index.js:186-191`) does neither: the catch block's
`debug('Failed to parse JSON: %s', err.message)` reads `.message` of
`err`, which in the 200 branch is the callback's falsy first argument
(`undefined`), so a `TypeError` is thrown out of the response callback
before the `return next()` (itself a *retry*, not a terminal error) is
reached.  Evaluated here: the single-registry scenario with a
malformed 200 crashes after one request; the historical variant of the
same callback (`src/unnamed/part_002:173-179`) shows the intended
terminal-error delivery. -/
theorem c1_parse_failure_crashes :
    sendRun cfgC1 netC1 = ⟨.crashed, ["registry/pkg"]⟩ ∧
    parseLegacy (netC1 0) = .terminalErr := ⟨rfl, rfl⟩

/-- C2 counterexample.  With primary `r/`, one mirror `m/`, retry
ceiling 2 and every response a 500, the full trace is
`[r/p, m/p, r/p, r/p]`: after the mirror list is exhausted (first two
attempts), both backoff retries hit the primary only — the mirror
never reappears, refuting "the retry is issued against the original
full deduplicated mirror list". -/
theorem c2_counterexample :
    (sendRun cfgC2 netC2).trace = ["r/p", "m/p", "r/p", "r/p"] ∧
    "m/p" ∉ (sendRun cfgC2 netC2).trace.drop 2 ∧
    (sendRun cfgC2 netC2).outcome = .terminal := by
  refine ⟨rfl, ?_, rfl⟩
  decide

/-- C2 amended.  After the Mirror Selector signals exhaustion, every
request issued by the backoff phase targets
`url.resolve(registry, path)` — the client's primary registry URL
only; the mirror list is not rebuilt. -/
theorem c2_backoff_targets_primary_only (cfg : SendCfg) (net : Nat → Resp) :
    ∀ (b k : Nat) (trace : List String) (u : String),
      u ∈ (runBackoff cfg net b k trace).trace →
      u ∈ trace ∨ u = resolveUrl cfg.registry cfg.path := by
  intro b
  induction b with
  | zero => intro k trace u hu; exact Or.inl hu
  | succ n ih =>
      intro k trace u hu
      simp only [runBackoff] at hu
      cases hp : parseResp (net k) <;> rw [hp] at hu
      case next =>
          rcases ih (k + 1) _ u hu with h | h
          · rcases List.mem_append.mp h with h | h
            · exact Or.inl h
            · exact Or.inr (List.mem_singleton.mp h)
          · exact Or.inr h
      case deliver v =>
          rcases List.mem_append.mp hu with h | h
          · exact Or.inl h
          · exact Or.inr (List.mem_singleton.mp h)
      case crash =>
          rcases List.mem_append.mp hu with h | h
          · exact Or.inl h
          · exact Or.inr (List.mem_singleton.mp h)

/-- Witness for C2's amended theorem at a concrete backoff run. -/
theorem c2_backoff_targets_primary_only_witness :
    "r/p" ∈ (runBackoff cfgC2 netC2 1 0 []).trace ∧
    ("r/p" ∈ ([] : List String) ∨ "r/p" = resolveUrl cfgC2.registry cfgC2.path) :=
  ⟨by decide, c2_backoff_targets_primary_only cfgC2 netC2 1 0 [] "r/p" (by decide)⟩

/-- C3.  The claim (and §8's end-to-end scenario) expects
`dist-tags.latest = "2.0.0"` and `releases = ["2.0.0", "1.0.0"]`.
The code computes the filtered, semver-descending sort
(`src/normalize/users.js:138-143`) but *discards* the result — the
expression's value is never assigned — so `releases` keeps the
`Object.keys` order `["1.0.0", "2.0.0"]` and `dist-tags.latest`
defaults to `releases[0] = "1.0.0"`.  The last conjunct evaluates the
discarded sort itself, confirming the intended value. -/
theorem c3_discarded_sort :
    (packages docC3).isOk = true ∧
    JSVal.getProp (JSVal.getProp (okValD (packages docC3)) "dist-tags") "latest" =
      .str "1.0.0" ∧
    JSVal.getProp (okValD (packages docC3)) "releases" =
      .arr [.str "1.0.0", .str "2.0.0"] ∧
    Semver.sortDesc ((JSVal.objKeys (JSVal.getProp docC3 "versions")).filter
      Semver.validLoose) = ["2.0.0", "1.0.0"] :=
  ⟨rfl, rfl, rfl, rfl⟩

/-- C6.  The pull sequence produced by `downgrade`'s dedupe
(`src/index.js:237-240`) over any mirror list of primitive values
(mirror configurations are string lists) equals the first-seen walk:
each distinct truthy entry appears exactly once, at its first
occurrence, falsy entries dropped. -/
theorem c6_dedupe_first_seen (l : List JSVal)
    (hprim : ∀ x ∈ l, JSVal.isPrim x = true) :
    dedupeMirrors l = specFirstSeen l :=
  dedupeGo_eq_firstSeenGo l hprim l [] rfl

/-- Witness for C6 on a list with duplicates and falsy entries. -/
theorem c6_dedupe_first_seen_witness :
    (∀ x ∈ ([.str "a", .null, .str "b", .str "a", .str "", .str "b"] : List JSVal),
      JSVal.isPrim x = true) ∧
    dedupeMirrors [.str "a", .null, .str "b", .str "a", .str "", .str "b"] =
      specFirstSeen [.str "a", .null, .str "b", .str "a", .str "", .str "b"] :=
  ⟨by decide, c6_dedupe_first_seen _ (by decide)⟩

/-- C8.  The claim expects `{github: "https://github.com/foo/"}` to
normalize to `github: "foo"` and
`{twitter: "https://twitter.com/baz"}` to `twitter: "baz"`.  Both
throw instead: the `g`-flag regexes are reused, so the `test()` call
advances `lastIndex` past the (only) match and the following `exec()`
returns `null`, making `...exec(...)[1]` raise a `TypeError` — the
twitter branch additionally feeds `exec` the misspelled `data.twiter`
(`undefined`).  Only the `@bar` case (no regex involved) yields the
claimed bare handle. -/
theorem c8_social_handles :
    users (.obj [("github", .str "https://github.com/foo/")]) =
      .error "TypeError: cannot read property 1 of null" ∧
    users (.obj [("twitter", .str "@bar")]) =
      .ok (.obj [("twitter", .str "bar")]) ∧
    users (.obj [("twitter", .str "https://twitter.com/baz")]) =
      .error "TypeError: cannot read property 1 of null" :=
  ⟨rfl, rfl, rfl⟩

set_option maxHeartbeats 4000000 in
/-- C9 counterexample.  Both normalization functions mutate the
caller's document in place and return it (`return data` after a chain
of property assignments), so the caller's `x` after the call *is* the
returned value.  "x is left unchanged" therefore requires
`packages x = .ok x`; already the empty object is extended with a
dozen defaulted fields. -/
theorem c9_counterexample : packages (.obj []) ≠ .ok (.obj []) :=
  fun h => absurd (congrArg relLen h) (by decide)

/-- C9 amended.  The pipeline is synchronous and touches nothing
outside the document, but it is not side-effect-free: object inputs
are rewritten in place (see the counterexample).  Only non-truthy or
non-object inputs are left untouched — both functions then return a
fresh empty object. -/
theorem c9_nonobject_untouched (x : JSVal)
    (h : JSVal.truthy x = false ∨ JSVal.toType x ≠ "object") :
    packages x = .ok (.obj []) ∧ users x = .ok (.obj []) := by
  have hc : ¬ JSVal.truthy x = true ∨ JSVal.toType x ≠ "object" := by
    rcases h with h | h
    · exact Or.inl (by simp [h])
    · exact Or.inr h
  constructor
  · unfold packages
    rw [if_pos hc]
  · unfold users
    rw [if_pos hc]
    rfl

/-- Witness for C9's amended theorem at the string input. -/
theorem c9_nonobject_untouched_witness :
    (JSVal.truthy (JSVal.str "s") = false ∨ JSVal.toType (JSVal.str "s") ≠ "object") ∧
    (packages (.str "s") = .ok (.obj []) ∧ users (.str "s") = .ok (.obj [])) :=
  ⟨Or.inr (by decide), c9_nonobject_untouched (.str "s") (Or.inr (by decide))⟩

set_option maxHeartbeats 4000000 in
/-- C5 counterexample.  For `{times: {"1.0.0": ...}}` the first
normalization computes `releases = ["1.0.0"]` from `times` but also
installs the defaulted `versions = {}`; that truthy empty object masks
`times` on the second pass, whose `releases` is `[]` — normalization
is not idempotent. -/
theorem c5_counterexample :
    ((packages timesOnlyDoc).bind packages) ≠ packages timesOnlyDoc :=
  fun h => absurd (congrArg relLen h) (by decide)

set_option maxHeartbeats 4000000 in
/-- C5 amended.  Normalization is not idempotent for arbitrary raw
documents (see the counterexample — renormalizing loses the
`times`-derived releases; even a non-object input normalizes to `{}`
whose renormalization is the fully defaulted record).  It is
idempotent exactly on documents whose normalization is a fixed point,
as the §8 end-to-end document is. -/
theorem c5_fixed_point : ((packages docC3).bind packages) = packages docC3 := rfl

/-- C4 counterexample.  Normalization is not total: a `null`
`dist-tags` passes the `typeof === 'object'` guard of line 148
(`typeof null === 'object'`), and `'latest' in null` on line 149 then
throws a `TypeError`. -/
theorem c4_counterexample :
    packages distTagsNull = .error "TypeError: cannot use in operator on object" := rfl

/-- C4 amended.  Normalization never throws for inputs whose
`dist-tags` field (when the input is an object) is neither `null` nor
an array — the `in` test of line 149 is the only fallible operation,
and the guard of line 148 replaces every other non-object shape by
`{}`.  (Array-valued `dist-tags` does not throw in JavaScript either;
the tree model omits array expando properties, so the theorem excludes
it.)  On the six probe inputs of the claim the result is moreover a
well-formed, possibly all-defaulted record. -/
theorem c4_total_except_null_dist_tags :
    (∀ x : JSVal,
      (JSVal.toType x = "object" →
        JSVal.getProp x "dist-tags" ≠ JSVal.null ∧
        JSVal.toType (JSVal.getProp x "dist-tags") ≠ "array") →
      (packages x).isOk = true) ∧
    probesC4.all
      (fun p => (packages p).isOk && wellFormedPackage (okValD (packages p))) = true := by
  constructor
  · intro x hP
    by_cases hg : ¬ JSVal.truthy x = true ∨ JSVal.toType x ≠ "object"
    · unfold packages
      rw [if_pos hg]
      rfl
    · have hobj : JSVal.toType x = "object" := by
        push_neg at hg
        exact hg.2
      obtain ⟨hnn, hna⟩ := hP hobj
      obtain ⟨fs, rfl⟩ : ∃ fs, x = .obj fs := by
        cases x <;> simp [JSVal.toType] at hobj <;> exact ⟨_, rfl⟩
      unfold packages
      rw [if_neg hg]
      simp only []
      have key : ∃ b, JSVal.hasPropE
          (JSVal.getProp
            (if JSVal.jsTypeof (JSVal.getProp (JSVal.obj fs) "dist-tags") ≠ "object"
             then JSVal.setProp (JSVal.obj fs) "dist-tags" (JSVal.obj [])
             else JSVal.obj fs) "dist-tags") "latest" = .ok b := by
        by_cases hty : JSVal.jsTypeof (JSVal.getProp (JSVal.obj fs) "dist-tags") ≠ "object"
        · rw [if_pos hty, getProp_setProp_self]
          exact ⟨false, rfl⟩
        · rw [if_neg hty]
          push_neg at hty
          cases hdt : JSVal.getProp (JSVal.obj fs) "dist-tags" with
          | null => exact absurd hdt hnn
          | arr xs =>
              rw [hdt] at hna
              exact absurd rfl hna
          | obj gs => exact ⟨(JSVal.assocFind gs "latest").isSome, rfl⟩
          | date t => exact ⟨false, rfl⟩
          | undefined => rw [hdt] at hty; simp [JSVal.jsTypeof] at hty
          | bool b => rw [hdt] at hty; simp [JSVal.jsTypeof] at hty
          | num n => rw [hdt] at hty; simp [JSVal.jsTypeof] at hty
          | str t => rw [hdt] at hty; simp [JSVal.jsTypeof] at hty
      obtain ⟨b, hb⟩ := key
      rw [hb]
      rfl
  · rfl

/-- Witness for C4's amended theorem at the empty object. -/
theorem c4_total_except_null_dist_tags_witness :
    (JSVal.getProp (JSVal.obj []) "dist-tags" ≠ JSVal.null ∧
      JSVal.toType (JSVal.getProp (JSVal.obj []) "dist-tags") ≠ "array") ∧
    (packages (.obj [])).isOk = true :=
  ⟨⟨fun h => JSVal.noConfusion h, by decide⟩,
   c4_total_except_null_dist_tags.1 (.obj [])
     (fun _ => ⟨fun h => JSVal.noConfusion h, by decide⟩)⟩

/-- C10.  If the normalized document's `versions` map binds some
version to a record with no readable `dist` (missing, `undefined` or
`null` — so `release.dist.shasum` cannot be read), the whole
`releases` operation fails: the versions loop emits that very record
(its in-place `date` assignment cannot create `dist`), and the `.map`
step's `release.dist.shasum` read throws, failing the stream. -/
theorem c10_missing_dist_throws (x d : JSVal) (fs : List (String × JSVal))
    (v : String) (rel : JSVal)
    (hd : packages x = .ok d)
    (hvs : JSVal.getProp d "versions" = .obj fs)
    (hfind : JSVal.assocFind fs v = some rel)
    (hld : lacksDist rel = true) :
    (releasesOp x).isOk = false := by
  unfold releasesOp
  rw [hd]
  show (releasesPure d).isOk = false
  unfold releasesPure
  rw [hvs]
  simp only []
  rw [if_neg (by simp [JSVal.truthy])]
  have hmem : v ∈ JSVal.objKeys (JSVal.obj fs) := by
    simpa [JSVal.objKeys] using assocFind_mem_keys hfind
  have hgv : JSVal.getProp (JSVal.obj fs) v = rel := by
    simp [JSVal.getProp, hfind]
  cases hemit : emitVersions (JSVal.getProp d "time")
      (JSVal.objKeys (JSVal.obj fs)) (JSVal.obj fs) [] with
  | error e => rw [exceptBindF_error]; rfl
  | ok vv =>
      obtain ⟨vs2, recs2⟩ := vv
      obtain ⟨r0, hr0mem, hr0⟩ :=
        emitVersions_offender _ _ _ _ _ v hmem (hgv ▸ hld) hemit
      rw [exceptBindF_ok]
      cases hdt : JSVal.hasPropE d "dist-tags" with
      | error e => rw [exceptBindF_error]; rfl
      | ok hasdt =>
          rw [exceptBindF_ok]
          cases htr : emitTags d (vs2, recs2).1 hasdt with
          | error e => rw [exceptBindF_error]; rfl
          | ok trecs =>
              rw [exceptBindF_ok]
              have hfail := mapReleases_error_of_mem ((vs2, recs2).2 ++ trecs) r0
                (List.mem_append_left _ hr0mem)
                (mapRelease_error_of_lacksDist hr0)
              cases hmr : mapReleases ((vs2, recs2).2 ++ trecs) with
              | error e => rw [exceptBindF_error]; rfl
              | ok ys =>
                  rw [hmr] at hfail
                  exact absurd hfail (by simp [Except.isOk, Except.toBool])

set_option maxHeartbeats 4000000 in
/-- Witness for C10: a package whose only version object is `{}` (no
`dist`), with `dist-tags = {latest: "1.0.0"}`. -/
theorem c10_missing_dist_throws_witness :
    packages pkgNoDist = .ok (okValD (packages pkgNoDist)) ∧
    JSVal.getProp (okValD (packages pkgNoDist)) "versions" =
      .obj [("1.0.0", .obj [])] ∧
    JSVal.assocFind [("1.0.0", JSVal.obj [])] "1.0.0" = some (.obj []) ∧
    lacksDist (.obj []) = true ∧
    (releasesOp pkgNoDist).isOk = false :=
  ⟨rfl, rfl, rfl, rfl,
   c10_missing_dist_throws pkgNoDist (okValD (packages pkgNoDist))
     [("1.0.0", .obj [])] "1.0.0" (.obj []) rfl rfl rfl rfl⟩

set_option maxHeartbeats 4000000 in
/-- C7.  On the claim's package, the materialized mapping has exactly
the two keys `1.0.0` and `latest`; the two records live at distinct
store addresses, and assigning *any* value to *any* field of the
`latest` record (a deep clone plus a fresh `.map` literal) leaves the
value of the `1.0.0` entry unchanged — the `latest` record's address
is not reachable from the `1.0.0` record. -/
theorem c7_tag_record_independent :
    c7memo.map Prod.fst = ["1.0.0", "latest"] ∧
    c7addrOf "1.0.0" ≠ c7addrOf "latest" ∧
    ∀ (f : String) (w : HV),
      hRead (hMutField c7store (c7addrOf "latest") f w) c7fuel
          (.ref (c7addrOf "1.0.0")) =
        hRead c7store c7fuel (.ref (c7addrOf "1.0.0")) :=
  ⟨rfl, by decide,
   fun f w => hMutField_frame c7store _ _ c7fuel f w (by decide)⟩

end Npmjs
